import Mathlib

/-!
Verification of the snowy geometry engine (`src/geometry.ts`).

The engine consists of three functions:
* `closestPointOnSegment` — projects a query point onto a line segment;
* `closestPointOnPolygon` — projects a query point onto a polygon boundary,
  returning the projected point and the index of the winning edge;
* `cutPolygon` — splits a polygon into two vertex loops along a cut path.

Modelling conventions:
* JavaScript numbers are idealised as real numbers (`ℝ`); `Math.sqrt` becomes
  `Real.sqrt`, and `Number.MAX_VALUE` becomes the exact rational value of that
  IEEE double, `(2^53 - 1) * 2^971`.
* All list accesses of the source are in-range on the inputs the functions are
  used with; out-of-range accesses (`polyPoints[0]` on an empty array) are
  modelled with `List.headI` / `List.getD` and a default point `origin`.
* In `cutPolygon` the source compares freshly allocated point objects with the
  JavaScript `!=` and `indexOf` operators, which work by reference identity.
  Every element of the augmented vertex list is a distinct heap object there:
  the mapped polygon vertices are fresh objects, and the two snapped points are
  fresh `fabric.Point`s returned by `closestPointOnPolygon`.  We model object
  identity by tagging every element of the augmented list with the unique
  provenance of its object (`Tag.vtx i`, `Tag.startP`, `Tag.endP`); the
  reference comparisons of the source become comparisons of tags.
-/

namespace Snowy

/-- A point, `fabric.XY` in the source: an x/y pair of (idealised) numbers. -/
@[ext]
structure XY where
  x : ℝ
  y : ℝ

/-- The origin; used as the junk value for out-of-range list accesses. -/
def origin : XY := ⟨0, 0⟩

instance : Inhabited XY := ⟨origin⟩

/-- `Number.MAX_VALUE` = (2 − 2⁻⁵²)·2¹⁰²³ = (2⁵³ − 1)·2⁹⁷¹, as an exact real. -/
noncomputable def maxValue : ℝ := (2 ^ 53 - 1) * 2 ^ 971

/-- Euclidean distance between two points. -/
noncomputable def euclideanDist (p q : XY) : ℝ :=
  Real.sqrt ((p.x - q.x) * (p.x - q.x) + (p.y - q.y) * (p.y - q.y))

/-- The scalar projection parameter `param` of `closestPointOnSegment`
(source lines 18–28): with `A = c.x - a.x`, `B = c.y - a.y`, `C = b.x - a.x`,
`D = b.y - a.y`, `dot = A*C + B*D` and `len_sq = C*C + D*D`, the source
initialises `param = -1` and overwrites it with `dot / len_sq` when
`len_sq != 0`. -/
noncomputable def segParam (a b c : XY) : ℝ :=
  if (b.x - a.x) * (b.x - a.x) + (b.y - a.y) * (b.y - a.y) ≠ 0 then
    ((c.x - a.x) * (b.x - a.x) + (c.y - a.y) * (b.y - a.y)) /
      ((b.x - a.x) * (b.x - a.x) + (b.y - a.y) * (b.y - a.y))
  else -1

/-- `closestPointOnSegment(a, b, c)` (source lines 13–46): the closest point on
segment `a`–`b` to the test point `c`, and the distance from `c` to it.
The branches on `param` are source lines 32–41 (with `C = b.x - a.x` and
`D = b.y - a.y` substituted), and the returned distance
`sqrt(dx*dx + dy*dy)` with `dx = c.x - xx`, `dy = c.y - yy`
(lines 43–45) is `euclideanDist c P`. -/
noncomputable def closestPointOnSegment (a b c : XY) : XY × ℝ :=
  let param := segParam a b c
  let P : XY :=
    if param < 0 then a
    else if param > 1 then b
    else ⟨a.x + param * (b.x - a.x), a.y + param * (b.y - a.y)⟩
  (P, euclideanDist c P)

/-- A `fabric.Polygon` as the engine uses it: its `points` array and its
`left`/`top` position offsets. -/
structure Polygon where
  points : List XY
  left : ℝ
  top : ℝ

/-- `scenePoint.subtract({x: poly.left, y: poly.top})` (source line 64). -/
noncomputable def localPt (poly : Polygon) (scenePoint : XY) : XY :=
  ⟨scenePoint.x - poly.left, scenePoint.y - poly.top⟩

/-- Translation of a local point back into scene coordinates
(`.add({x: poly.left, y: poly.top})`, source lines 85–88 and 111–114). -/
noncomputable def offsetXY (poly : Polygon) (p : XY) : XY :=
  ⟨p.x + poly.left, p.y + poly.top⟩

/-- `prev = (index === 0 ? polyPoints.length : index) - 1` (source line 71). -/
def prevIdx (n i : ℕ) : ℕ :=
  (if i = 0 then n else i) - 1

/-- The candidate produced at iteration `i` of the polygon loop: the segment
projection of `point` onto the segment from `p1 = pts[i]` to
`p2 = pts[prev i]` (source lines 72–77). -/
noncomputable def candPair (pts : List XY) (point : XY) (i : ℕ) : XY × ℝ :=
  closestPointOnSegment (pts.getD i origin) (pts.getD (prevIdx pts.length i) origin) point

/-- The degeneracy test of iteration `i`: `line.eq({x: 0, y: 0})` where
`line = p2.subtract(p1)` (source lines 73–75). -/
def degAt (pts : List XY) (i : ℕ) : Prop :=
  (pts.getD (prevIdx pts.length i) origin).x - (pts.getD i origin).x = 0 ∧
  (pts.getD (prevIdx pts.length i) origin).y - (pts.getD i origin).y = 0

noncomputable instance (pts : List XY) (i : ℕ) : Decidable (degAt pts i) := by
  unfold degAt; infer_instance

/-- One iteration of the `forEach` loop of `closestPointOnPolygon`
(source lines 70–83).  The state is
`(closestPointOnPoly, shortestDist, segmentIndex)`. -/
noncomputable def polyStep (pts : List XY) (point : XY) (st : XY × ℝ × ℕ) (i : ℕ) :
    XY × ℝ × ℕ :=
  if degAt pts i then st
  else if (candPair pts point i).2 ≤ st.2.1 then
    ((candPair pts point i).1, (candPair pts point i).2, prevIdx pts.length i)
  else st

/-- `closestPointOnPolygon(poly, scenePoint)` (source lines 60–91): the closest
point on the polygon boundary to the test point, in scene coordinates, and the
index of the winning segment. -/
noncomputable def closestPointOnPolygon (poly : Polygon) (scenePoint : XY) : XY × ℕ :=
  let point := localPt poly scenePoint
  let pts := poly.points
  let r := (List.range pts.length).foldl (polyStep pts point) (pts.headI, maxValue, 0)
  (offsetXY poly r.1, r.2.2)

/-- Provenance tag for elements of the augmented vertex list of `cutPolygon`.
Each element of that list is a distinct heap object in the source: a freshly
mapped polygon vertex (`vtx i`), the snapped start point (`startP`), or the
snapped end point (`endP`).  JavaScript `!=` and `indexOf` compare these
objects by reference, i.e. by tag. -/
inductive Tag where
  | vtx (i : ℕ)
  | startP
  | endP
deriving DecidableEq

/-- JavaScript `!=` on two of the heap objects above: reference inequality. -/
def jsObjNe (a b : Tag) : Prop := a ≠ b

instance (a b : Tag) : Decidable (jsObjNe a b) := by
  unfold jsObjNe; infer_instance

/-- Manhattan distance, as computed at source lines 128–133. -/
noncomputable def manhattan (p q : XY) : ℝ :=
  |p.x - q.x| + |p.y - q.y|

/-- The points pushed right after vertex `i` while gathering the augmented
vertex list (source lines 119–143): both snapped points (ordered by Manhattan
distance to vertex `i`) when both segment indices equal `i`, otherwise the
single matching snapped point.  The `jsObjNe` conjuncts are the source's
`startPoint != polyPoints[i]` / `endPoint != polyPoints[i]` reference
comparisons. -/
noncomputable def insertions (sp ep : XY) (sI eI : ℕ) (v : XY) (i : ℕ) : List (Tag × XY) :=
  if sI = i ∧ eI = i ∧ jsObjNe Tag.startP (Tag.vtx i) ∧ jsObjNe Tag.endP (Tag.vtx i) then
    if manhattan sp v < manhattan ep v then
      [(Tag.startP, sp), (Tag.endP, ep)]
    else
      [(Tag.endP, ep), (Tag.startP, sp)]
  else if sI = i ∧ jsObjNe Tag.startP (Tag.vtx i) then [(Tag.startP, sp)]
  else if eI = i ∧ jsObjNe Tag.endP (Tag.vtx i) then [(Tag.endP, ep)]
  else []

/-- The augmented clockwise vertex list (source lines 116–144): every polygon
vertex in order, with the snapped points inserted after their matched vertex. -/
noncomputable def augmentedVertices (pts : List XY) (sp ep : XY) (sI eI : ℕ) :
    List (Tag × XY) :=
  (List.range pts.length).flatMap fun i =>
    (Tag.vtx i, pts.getD i origin) :: insertions sp ep sI eI (pts.getD i origin) i

/-- `poly.points.map(p => ({x: p.x + poly.left, y: p.y + poly.top}))`
(source lines 111–114). -/
noncomputable def offsetPts (poly : Polygon) : List XY :=
  poly.points.map (offsetXY poly)

/-- `vertices.indexOf(x)`: the position of the (unique) element with tag `t`.
JavaScript `indexOf` uses strict (reference) equality, i.e. tag equality. -/
def tagIdx (vs : List (Tag × XY)) (t : Tag) : ℕ :=
  vs.findIdx fun v => decide (v.1 = t)

/-- `cut.slice(1, -1)`: the interior points of the cut path. -/
def cutInterior (cut : List XY) : List XY :=
  (cut.drop 1).dropLast

/-- `l.slice(a, b)` for in-range non-negative `a ≤ b`. -/
def jsSlice (l : List α) (a b : ℕ) : List α :=
  (l.take b).drop a

/-- The augmented vertex list built by `cutPolygon poly cut`
(source lines 107–144): snap both cut endpoints, translate the polygon's
points into scene coordinates, and insert the snapped points. -/
noncomputable def splitVertices (poly : Polygon) (cut : List XY) : List (Tag × XY) :=
  augmentedVertices (offsetPts poly)
    (closestPointOnPolygon poly cut.headI).1
    (closestPointOnPolygon poly (cut.getLastD origin)).1
    (closestPointOnPolygon poly cut.headI).2
    (closestPointOnPolygon poly (cut.getLastD origin)).2

/-- `cutPolygon(poly, cut)` (source lines 100–167).  Throws (`Except.error`)
when the cut path has fewer than two points; otherwise cuts the augmented
vertex list into two arcs at the positions of the snapped points and closes
each arc with the interior of the cut path (reversed for the first shape,
forward for the second). -/
noncomputable def cutPolygon (poly : Polygon) (cut : List XY) :
    Except String (List XY × List XY) :=
  if cut.length < 2 then Except.error "cut path is too short" else
  let vertices := splitVertices poly cut
  let s := tagIdx vertices Tag.startP
  let e := tagIdx vertices Tag.endP
  let interior := cutInterior cut
  if s < e then
    Except.ok
      ((jsSlice vertices s (e + 1)).map Prod.snd ++ interior.reverse,
       (jsSlice vertices e vertices.length ++ jsSlice vertices 0 (s + 1)).map Prod.snd
         ++ interior)
  else
    Except.ok
      ((jsSlice vertices s vertices.length ++ jsSlice vertices 0 (e + 1)).map Prod.snd
         ++ interior.reverse,
       (jsSlice vertices e (s + 1)).map Prod.snd ++ interior)

/-- Membership in the closed segment from `p` to `q`:
`r = p + s·(q − p)` for some `s ∈ [0, 1]`. -/
def onSegment (p q r : XY) : Prop :=
  ∃ s : ℝ, 0 ≤ s ∧ s ≤ 1 ∧ r.x = p.x + s * (q.x - p.x) ∧ r.y = p.y + s * (q.y - p.y)

/-- The 300×300 square polygon of the spec's concrete scenarios, with zero
offset. -/
noncomputable def sqPoly : Polygon :=
  ⟨[⟨0, 0⟩, ⟨300, 0⟩, ⟨300, 300⟩, ⟨0, 300⟩], 0, 0⟩

/-- A polygon with only two distinct points, for the degenerate-input
scenarios. -/
noncomputable def twoPoly : Polygon :=
  ⟨[⟨0, 0⟩, ⟨10, 0⟩], 0, 0⟩

/-! ### Basic lemmas about the segment projection -/

lemma closestPointOnSegment_fst (a b c : XY) :
    (closestPointOnSegment a b c).1 =
      if segParam a b c < 0 then a
      else if segParam a b c > 1 then b
      else ⟨a.x + segParam a b c * (b.x - a.x), a.y + segParam a b c * (b.y - a.y)⟩ := rfl

lemma closestPointOnSegment_snd (a b c : XY) :
    (closestPointOnSegment a b c).2 = euclideanDist c (closestPointOnSegment a b c).1 := rfl

lemma closestPointOnSegment_onSegment (a b c : XY) :
    onSegment a b (closestPointOnSegment a b c).1 := by
  rw [closestPointOnSegment_fst]
  split_ifs with h0 h1
  · exact ⟨0, le_refl 0, zero_le_one, by ring, by ring⟩
  · exact ⟨1, zero_le_one, le_refl 1, by ring, by ring⟩
  · exact ⟨segParam a b c, not_lt.1 h0, not_lt.1 h1, rfl, rfl⟩

lemma onSegment_symm {p q r : XY} (h : onSegment p q r) : onSegment q p r := by
  obtain ⟨s, h0, h1, hx, hy⟩ := h
  exact ⟨1 - s, by linarith, by linarith, by rw [hx]; ring, by rw [hy]; ring⟩

lemma onSegment_offsetXY (poly : Polygon) {p q r : XY} (h : onSegment p q r) :
    onSegment (offsetXY poly p) (offsetXY poly q) (offsetXY poly r) := by
  obtain ⟨s, h0, h1, hx, hy⟩ := h
  refine ⟨s, h0, h1, ?_, ?_⟩
  · simp only [offsetXY]; rw [hx]; ring
  · simp only [offsetXY]; rw [hy]; ring

lemma euclideanDist_nonneg (p q : XY) : 0 ≤ euclideanDist p q :=
  Real.sqrt_nonneg _

/-- Evaluation helper: a concrete instance of the segment projection is
determined by its parameter value `t`, the clamped point `P`, and a
non-negative `d` whose square is the squared distance to `P`. -/
lemma closestPointOnSegment_eval (a b c P : XY) (t d : ℝ)
    (ht : segParam a b c = t)
    (hP : P = (if t < 0 then a
               else if t > 1 then b
               else ⟨a.x + t * (b.x - a.x), a.y + t * (b.y - a.y)⟩))
    (hd : 0 ≤ d)
    (hdist : (c.x - P.x) * (c.x - P.x) + (c.y - P.y) * (c.y - P.y) = d * d) :
    closestPointOnSegment a b c = (P, d) := by
  have h1 : (closestPointOnSegment a b c).1 = P := by
    rw [closestPointOnSegment_fst, ht, hP]
  have h2 : (closestPointOnSegment a b c).2 = d := by
    rw [closestPointOnSegment_snd, h1]
    unfold euclideanDist
    rw [hdist, Real.sqrt_mul_self hd]
  calc closestPointOnSegment a b c
      = ((closestPointOnSegment a b c).1, (closestPointOnSegment a b c).2) := rfl
    _ = (P, d) := by rw [h1, h2]

/-! ### C10 — degenerate segment -/

/-- C10: for a degenerate segment with `A = B`, `closestPointOnSegment` does
not fail: it returns the point `A` together with the Euclidean distance from
the query point to `A` (the parameter stays `-1`, so the clamp selects `A`). -/
theorem c10_degenerate_segment (a c : XY) :
    closestPointOnSegment a a c = (a, euclideanDist c a) := by
  have hp : segParam a a c = -1 := by
    unfold segParam
    norm_num
  have h1 : (closestPointOnSegment a a c).1 = a := by
    rw [closestPointOnSegment_fst, hp]
    norm_num
  calc closestPointOnSegment a a c
      = ((closestPointOnSegment a a c).1, (closestPointOnSegment a a c).2) := rfl
    _ = (a, euclideanDist c a) := by
        rw [closestPointOnSegment_snd, h1]

/-! ### C6 — segment projection specification -/

/-- C6: for a non-degenerate segment `a`–`b` and any query point `c`,
the projection parameter is `t = ((C−A)·(B−A))/|B−A|²`; the function returns
`a` when `t < 0`, `b` when `t > 1`, and `a + t(b−a)` otherwise; the returned
point lies within the closed segment; and the returned distance equals the
Euclidean distance from `c` to the returned point. -/
theorem c6_segment_projection (a b c : XY) (t : ℝ)
    (hlen : (b.x - a.x) * (b.x - a.x) + (b.y - a.y) * (b.y - a.y) ≠ 0)
    (ht : t = ((c.x - a.x) * (b.x - a.x) + (c.y - a.y) * (b.y - a.y)) /
      ((b.x - a.x) * (b.x - a.x) + (b.y - a.y) * (b.y - a.y))) :
    (closestPointOnSegment a b c).1 =
      (if t < 0 then a
       else if t > 1 then b
       else ⟨a.x + t * (b.x - a.x), a.y + t * (b.y - a.y)⟩) ∧
    onSegment a b (closestPointOnSegment a b c).1 ∧
    (closestPointOnSegment a b c).2 = euclideanDist c (closestPointOnSegment a b c).1 := by
  have hp : segParam a b c = t := by
    unfold segParam
    rw [if_pos hlen, ht]
  exact ⟨by rw [closestPointOnSegment_fst, hp],
    closestPointOnSegment_onSegment a b c,
    closestPointOnSegment_snd a b c⟩

/-- Witness for C6 at the segment `(0,0)`–`(10,0)` with query `(3,4)`. -/
theorem c6_segment_projection_witness :
    (closestPointOnSegment ⟨0, 0⟩ ⟨10, 0⟩ ⟨3, 4⟩).1 = ⟨3, 0⟩ ∧
    onSegment ⟨0, 0⟩ ⟨10, 0⟩ (closestPointOnSegment ⟨0, 0⟩ ⟨10, 0⟩ ⟨3, 4⟩).1 ∧
    (closestPointOnSegment ⟨0, 0⟩ ⟨10, 0⟩ ⟨3, 4⟩).2 =
      euclideanDist ⟨3, 4⟩ (closestPointOnSegment ⟨0, 0⟩ ⟨10, 0⟩ ⟨3, 4⟩).1 := by
  have h := c6_segment_projection ⟨0, 0⟩ ⟨10, 0⟩ ⟨3, 4⟩ (3 / 10)
    (by norm_num) (by norm_num)
  refine ⟨?_, h.2.1, h.2.2⟩
  rw [h.1]
  norm_num

/-! ### C7 — invalid cut detection -/

/-- C7: `cutPolygon` fails if and only if the cut path has fewer than two
points, and in that case it fails with the "cut path is too short" error at
the start of the operation, before any snapping or list surgery. -/
theorem c7_invalid_cut (poly : Polygon) (cut : List XY) :
    ((∃ msg, cutPolygon poly cut = Except.error msg) ↔ cut.length < 2) ∧
    (cut.length < 2 → cutPolygon poly cut = Except.error "cut path is too short") := by
  have hshort : cut.length < 2 → cutPolygon poly cut = Except.error "cut path is too short" := by
    intro h
    unfold cutPolygon
    rw [if_pos h]
  refine ⟨⟨?_, fun h => ⟨_, hshort h⟩⟩, hshort⟩
  intro ⟨msg, hmsg⟩
  by_contra hlen
  unfold cutPolygon at hmsg
  rw [if_neg hlen] at hmsg
  simp only [] at hmsg
  split_ifs at hmsg

/-! ### The polygon projection loop: a fold whose `≤` update makes the last
minimal candidate win -/

lemma polyStep_update (pts : List XY) (point : XY) (st : XY × ℝ × ℕ) (i : ℕ)
    (hnd : ¬ degAt pts i) (hle : (candPair pts point i).2 ≤ st.2.1) :
    polyStep pts point st i =
      ((candPair pts point i).1, (candPair pts point i).2, prevIdx pts.length i) := by
  unfold polyStep
  rw [if_neg hnd, if_pos hle]

lemma polyStep_keep_big (pts : List XY) (point : XY) (st : XY × ℝ × ℕ) (i : ℕ)
    (h : ¬ degAt pts i → st.2.1 < (candPair pts point i).2) :
    polyStep pts point st i = st := by
  unfold polyStep
  split_ifs with h1 h2
  · rfl
  · exact absurd h2 (not_le.2 (h h1))
  · rfl

/-- While no candidate beats `d`, the running shortest distance stays `≥ d`. -/
lemma foldl_polyStep_lb (pts : List XY) (point : XY) (d : ℝ) :
    ∀ (l : List ℕ) (st : XY × ℝ × ℕ), d ≤ st.2.1 →
      (∀ i ∈ l, ¬ degAt pts i → d ≤ (candPair pts point i).2) →
      d ≤ (l.foldl (polyStep pts point) st).2.1 := by
  intro l
  induction l with
  | nil => intro st hst _; simpa using hst
  | cons i l ih =>
    intro st hst hl
    rw [List.foldl_cons]
    refine ih _ ?_ fun j hj => hl j (List.mem_cons_of_mem _ hj)
    unfold polyStep
    split_ifs with h1 h2
    · exact hst
    · exact hl i (List.mem_cons_self i l) h1
    · exact hst

/-- Once the state strictly beats every remaining candidate, the fold is
frozen. -/
lemma foldl_polyStep_frozen (pts : List XY) (point : XY) :
    ∀ (l : List ℕ) (st : XY × ℝ × ℕ),
      (∀ i ∈ l, ¬ degAt pts i → st.2.1 < (candPair pts point i).2) →
      l.foldl (polyStep pts point) st = st := by
  intro l
  induction l with
  | nil => intro st _; rfl
  | cons i l ih =>
    intro st hl
    rw [List.foldl_cons, polyStep_keep_big pts point st i (hl i (List.mem_cons_self i l))]
    exact ih st fun j hj => hl j (List.mem_cons_of_mem _ hj)

/-- Splitting `List.range n` at an interior position `j`. -/
lemma range_split {j n : ℕ} (h : j < n) :
    List.range n = List.range j ++ j :: List.range' (j + 1) (n - (j + 1)) := by
  have h1 : List.range n = List.range' 0 j ++ List.range' (0 + j) (n - j) := by
    rw [List.range'_append_1, List.range_eq_range']
    congr 1
    omega
  have h2 : List.range' (0 + j) (n - j) = j :: List.range' (j + 1) (n - (j + 1)) := by
    have hn : n - j = (n - (j + 1)) + 1 := by omega
    rw [hn, List.range'_succ]
    norm_num
  rw [h1, h2, ← List.range_eq_range']

/-- The polygon projection loop returns the candidate of the last non-degenerate
edge achieving the minimal distance: iteration `j` wins if it is non-degenerate,
its distance is at most `Number.MAX_VALUE`, no other non-degenerate iteration
has a strictly smaller distance, and every later non-degenerate iteration has a
strictly larger one.  This is the `distance <= shortestDist` ("`≤`, not `<`")
update rule of source lines 78–82. -/
lemma closestPointOnPolygon_lastArgmin (poly : Polygon) (q : XY) (j : ℕ)
    (hj : j < poly.points.length)
    (hnd : ¬ degAt poly.points j)
    (hmax : (candPair poly.points (localPt poly q) j).2 ≤ maxValue)
    (hmin : ∀ k < poly.points.length, ¬ degAt poly.points k →
      (candPair poly.points (localPt poly q) j).2 ≤ (candPair poly.points (localPt poly q) k).2)
    (hlast : ∀ k < poly.points.length, j < k → ¬ degAt poly.points k →
      (candPair poly.points (localPt poly q) j).2 < (candPair poly.points (localPt poly q) k).2) :
    closestPointOnPolygon poly q =
      (offsetXY poly (candPair poly.points (localPt poly q) j).1,
       prevIdx poly.points.length j) := by
  unfold closestPointOnPolygon
  simp only []
  rw [range_split hj, List.foldl_append, List.foldl_cons]
  set pts := poly.points
  set point := localPt poly q
  set st0 : XY × ℝ × ℕ := (pts.headI, maxValue, 0) with hst0
  have hlb : (candPair pts point j).2 ≤ ((List.range j).foldl (polyStep pts point) st0).2.1 := by
    refine foldl_polyStep_lb pts point _ _ _ (by rw [hst0]; exact hmax) ?_
    intro i hi hnd'
    exact hmin i (lt_trans (List.mem_range.1 hi) hj) hnd'
  rw [polyStep_update pts point _ j hnd hlb]
  rw [foldl_polyStep_frozen pts point _ _ ?_]
  intro k hk hndk
  have hk1 : j + 1 ≤ k := (List.mem_range'_1.1 hk).1
  have hk3 := (List.mem_range'_1.1 hk).2
  have hk2 : k < pts.length := by omega
  exact hlast k hk2 (by omega) hndk

/-! ### Concrete candidate evaluations on the square polygon

Query points: `A = (150,0)`, `B = (150,300)`, `C = (0,0)`, `D = (300,300)`
on `sqPoly`, and `E = (5,7)` on `twoPoly`.  Iteration `i` projects onto the
segment from vertex `i` to vertex `i−1` (wrapping at `0`). -/

lemma le_maxValue {x : ℝ} (h : x ≤ 1000) : x ≤ maxValue := by
  refine le_trans h ?_
  unfold maxValue
  norm_num

lemma candA0 : candPair sqPoly.points ⟨150, 0⟩ 0 = (⟨0, 0⟩, 150) := by
  have h : candPair sqPoly.points ⟨150, 0⟩ 0 =
      closestPointOnSegment ⟨0, 0⟩ ⟨0, 300⟩ ⟨150, 0⟩ := rfl
  rw [h]
  exact closestPointOnSegment_eval _ _ _ _ 0 150
    (by unfold segParam; norm_num) (by norm_num) (by norm_num) (by norm_num)

lemma candA1 : candPair sqPoly.points ⟨150, 0⟩ 1 = (⟨150, 0⟩, 0) := by
  have h : candPair sqPoly.points ⟨150, 0⟩ 1 =
      closestPointOnSegment ⟨300, 0⟩ ⟨0, 0⟩ ⟨150, 0⟩ := rfl
  rw [h]
  exact closestPointOnSegment_eval _ _ _ _ (1 / 2) 0
    (by unfold segParam; norm_num) (by norm_num) (by norm_num) (by norm_num)

lemma candA2 : candPair sqPoly.points ⟨150, 0⟩ 2 = (⟨300, 0⟩, 150) := by
  have h : candPair sqPoly.points ⟨150, 0⟩ 2 =
      closestPointOnSegment ⟨300, 300⟩ ⟨300, 0⟩ ⟨150, 0⟩ := rfl
  rw [h]
  exact closestPointOnSegment_eval _ _ _ _ 1 150
    (by unfold segParam; norm_num) (by norm_num) (by norm_num) (by norm_num)

lemma candA3 : candPair sqPoly.points ⟨150, 0⟩ 3 = (⟨150, 300⟩, 300) := by
  have h : candPair sqPoly.points ⟨150, 0⟩ 3 =
      closestPointOnSegment ⟨0, 300⟩ ⟨300, 300⟩ ⟨150, 0⟩ := rfl
  rw [h]
  exact closestPointOnSegment_eval _ _ _ _ (1 / 2) 300
    (by unfold segParam; norm_num) (by norm_num) (by norm_num) (by norm_num)

lemma candB0 : candPair sqPoly.points ⟨150, 300⟩ 0 = (⟨0, 300⟩, 150) := by
  have h : candPair sqPoly.points ⟨150, 300⟩ 0 =
      closestPointOnSegment ⟨0, 0⟩ ⟨0, 300⟩ ⟨150, 300⟩ := rfl
  rw [h]
  exact closestPointOnSegment_eval _ _ _ _ 1 150
    (by unfold segParam; norm_num) (by norm_num) (by norm_num) (by norm_num)

lemma candB1 : candPair sqPoly.points ⟨150, 300⟩ 1 = (⟨150, 0⟩, 300) := by
  have h : candPair sqPoly.points ⟨150, 300⟩ 1 =
      closestPointOnSegment ⟨300, 0⟩ ⟨0, 0⟩ ⟨150, 300⟩ := rfl
  rw [h]
  exact closestPointOnSegment_eval _ _ _ _ (1 / 2) 300
    (by unfold segParam; norm_num) (by norm_num) (by norm_num) (by norm_num)

lemma candB2 : candPair sqPoly.points ⟨150, 300⟩ 2 = (⟨300, 300⟩, 150) := by
  have h : candPair sqPoly.points ⟨150, 300⟩ 2 =
      closestPointOnSegment ⟨300, 300⟩ ⟨300, 0⟩ ⟨150, 300⟩ := rfl
  rw [h]
  exact closestPointOnSegment_eval _ _ _ _ 0 150
    (by unfold segParam; norm_num) (by norm_num) (by norm_num) (by norm_num)

lemma candB3 : candPair sqPoly.points ⟨150, 300⟩ 3 = (⟨150, 300⟩, 0) := by
  have h : candPair sqPoly.points ⟨150, 300⟩ 3 =
      closestPointOnSegment ⟨0, 300⟩ ⟨300, 300⟩ ⟨150, 300⟩ := rfl
  rw [h]
  exact closestPointOnSegment_eval _ _ _ _ (1 / 2) 0
    (by unfold segParam; norm_num) (by norm_num) (by norm_num) (by norm_num)

lemma candC0 : candPair sqPoly.points ⟨0, 0⟩ 0 = (⟨0, 0⟩, 0) := by
  have h : candPair sqPoly.points ⟨0, 0⟩ 0 =
      closestPointOnSegment ⟨0, 0⟩ ⟨0, 300⟩ ⟨0, 0⟩ := rfl
  rw [h]
  exact closestPointOnSegment_eval _ _ _ _ 0 0
    (by unfold segParam; norm_num) (by norm_num) (by norm_num) (by norm_num)

lemma candC1 : candPair sqPoly.points ⟨0, 0⟩ 1 = (⟨0, 0⟩, 0) := by
  have h : candPair sqPoly.points ⟨0, 0⟩ 1 =
      closestPointOnSegment ⟨300, 0⟩ ⟨0, 0⟩ ⟨0, 0⟩ := rfl
  rw [h]
  exact closestPointOnSegment_eval _ _ _ _ 1 0
    (by unfold segParam; norm_num) (by norm_num) (by norm_num) (by norm_num)

lemma candC2 : candPair sqPoly.points ⟨0, 0⟩ 2 = (⟨300, 0⟩, 300) := by
  have h : candPair sqPoly.points ⟨0, 0⟩ 2 =
      closestPointOnSegment ⟨300, 300⟩ ⟨300, 0⟩ ⟨0, 0⟩ := rfl
  rw [h]
  exact closestPointOnSegment_eval _ _ _ _ 1 300
    (by unfold segParam; norm_num) (by norm_num) (by norm_num) (by norm_num)

lemma candC3 : candPair sqPoly.points ⟨0, 0⟩ 3 = (⟨0, 300⟩, 300) := by
  have h : candPair sqPoly.points ⟨0, 0⟩ 3 =
      closestPointOnSegment ⟨0, 300⟩ ⟨300, 300⟩ ⟨0, 0⟩ := rfl
  rw [h]
  exact closestPointOnSegment_eval _ _ _ _ 0 300
    (by unfold segParam; norm_num) (by norm_num) (by norm_num) (by norm_num)

lemma candD0 : candPair sqPoly.points ⟨300, 300⟩ 0 = (⟨0, 300⟩, 300) := by
  have h : candPair sqPoly.points ⟨300, 300⟩ 0 =
      closestPointOnSegment ⟨0, 0⟩ ⟨0, 300⟩ ⟨300, 300⟩ := rfl
  rw [h]
  exact closestPointOnSegment_eval _ _ _ _ 1 300
    (by unfold segParam; norm_num) (by norm_num) (by norm_num) (by norm_num)

lemma candD1 : candPair sqPoly.points ⟨300, 300⟩ 1 = (⟨300, 0⟩, 300) := by
  have h : candPair sqPoly.points ⟨300, 300⟩ 1 =
      closestPointOnSegment ⟨300, 0⟩ ⟨0, 0⟩ ⟨300, 300⟩ := rfl
  rw [h]
  exact closestPointOnSegment_eval _ _ _ _ 0 300
    (by unfold segParam; norm_num) (by norm_num) (by norm_num) (by norm_num)

lemma candD2 : candPair sqPoly.points ⟨300, 300⟩ 2 = (⟨300, 300⟩, 0) := by
  have h : candPair sqPoly.points ⟨300, 300⟩ 2 =
      closestPointOnSegment ⟨300, 300⟩ ⟨300, 0⟩ ⟨300, 300⟩ := rfl
  rw [h]
  exact closestPointOnSegment_eval _ _ _ _ 0 0
    (by unfold segParam; norm_num) (by norm_num) (by norm_num) (by norm_num)

lemma candD3 : candPair sqPoly.points ⟨300, 300⟩ 3 = (⟨300, 300⟩, 0) := by
  have h : candPair sqPoly.points ⟨300, 300⟩ 3 =
      closestPointOnSegment ⟨0, 300⟩ ⟨300, 300⟩ ⟨300, 300⟩ := rfl
  rw [h]
  exact closestPointOnSegment_eval _ _ _ _ 1 0
    (by unfold segParam; norm_num) (by norm_num) (by norm_num) (by norm_num)

lemma candE0 : candPair twoPoly.points ⟨5, 7⟩ 0 = (⟨5, 0⟩, 7) := by
  have h : candPair twoPoly.points ⟨5, 7⟩ 0 =
      closestPointOnSegment ⟨0, 0⟩ ⟨10, 0⟩ ⟨5, 7⟩ := rfl
  rw [h]
  exact closestPointOnSegment_eval _ _ _ _ (1 / 2) 7
    (by unfold segParam; norm_num) (by norm_num) (by norm_num) (by norm_num)

lemma candE1 : candPair twoPoly.points ⟨5, 7⟩ 1 = (⟨5, 0⟩, 7) := by
  have h : candPair twoPoly.points ⟨5, 7⟩ 1 =
      closestPointOnSegment ⟨10, 0⟩ ⟨0, 0⟩ ⟨5, 7⟩ := rfl
  rw [h]
  exact closestPointOnSegment_eval _ _ _ _ (1 / 2) 7
    (by unfold segParam; norm_num) (by norm_num) (by norm_num) (by norm_num)

/-! ### Concrete polygon projections -/

lemma cpop_sq_A : closestPointOnPolygon sqPoly ⟨150, 0⟩ = (⟨150, 0⟩, 0) := by
  have hq : localPt sqPoly ⟨150, 0⟩ = ⟨150, 0⟩ := by norm_num [localPt, sqPoly]
  have h := closestPointOnPolygon_lastArgmin sqPoly ⟨150, 0⟩ 1
    (by norm_num [sqPoly])
    (by show ¬((0 : ℝ) - 300 = 0 ∧ (0 : ℝ) - 0 = 0); norm_num)
    (by rw [hq, candA1]; exact le_maxValue (by norm_num))
    (by
      intro k hk _
      rw [hq, candA1]
      have hk4 : k < 4 := hk
      clear hk
      interval_cases k <;> norm_num [candA0, candA1, candA2, candA3])
    (by
      intro k hk h1k _
      rw [hq, candA1]
      have hk4 : k < 4 := hk
      clear hk
      interval_cases k <;> norm_num [candA2, candA3])
  rw [hq, candA1] at h
  rw [h]
  norm_num [offsetXY, sqPoly, prevIdx]

lemma cpop_sq_B : closestPointOnPolygon sqPoly ⟨150, 300⟩ = (⟨150, 300⟩, 2) := by
  have hq : localPt sqPoly ⟨150, 300⟩ = ⟨150, 300⟩ := by norm_num [localPt, sqPoly]
  have h := closestPointOnPolygon_lastArgmin sqPoly ⟨150, 300⟩ 3
    (by norm_num [sqPoly])
    (by show ¬((300 : ℝ) - 0 = 0 ∧ (300 : ℝ) - 300 = 0); norm_num)
    (by rw [hq, candB3]; exact le_maxValue (by norm_num))
    (by
      intro k hk _
      rw [hq, candB3]
      have hk4 : k < 4 := hk
      clear hk
      interval_cases k <;> norm_num [candB0, candB1, candB2, candB3])
    (by
      intro k hk h3k _
      have hk4 : k < 4 := hk
      omega)
  rw [hq, candB3] at h
  rw [h]
  norm_num [offsetXY, sqPoly, prevIdx]

lemma cpop_sq_C : closestPointOnPolygon sqPoly ⟨0, 0⟩ = (⟨0, 0⟩, 0) := by
  have hq : localPt sqPoly ⟨0, 0⟩ = ⟨0, 0⟩ := by norm_num [localPt, sqPoly]
  have h := closestPointOnPolygon_lastArgmin sqPoly ⟨0, 0⟩ 1
    (by norm_num [sqPoly])
    (by show ¬((0 : ℝ) - 300 = 0 ∧ (0 : ℝ) - 0 = 0); norm_num)
    (by rw [hq, candC1]; exact le_maxValue (by norm_num))
    (by
      intro k hk _
      rw [hq, candC1]
      have hk4 : k < 4 := hk
      clear hk
      interval_cases k <;> norm_num [candC0, candC1, candC2, candC3])
    (by
      intro k hk h1k _
      rw [hq, candC1]
      have hk4 : k < 4 := hk
      clear hk
      interval_cases k <;> norm_num [candC2, candC3])
  rw [hq, candC1] at h
  rw [h]
  norm_num [offsetXY, sqPoly, prevIdx]

lemma cpop_sq_D : closestPointOnPolygon sqPoly ⟨300, 300⟩ = (⟨300, 300⟩, 2) := by
  have hq : localPt sqPoly ⟨300, 300⟩ = ⟨300, 300⟩ := by norm_num [localPt, sqPoly]
  have h := closestPointOnPolygon_lastArgmin sqPoly ⟨300, 300⟩ 3
    (by norm_num [sqPoly])
    (by show ¬((300 : ℝ) - 0 = 0 ∧ (300 : ℝ) - 300 = 0); norm_num)
    (by rw [hq, candD3]; exact le_maxValue (by norm_num))
    (by
      intro k hk _
      rw [hq, candD3]
      have hk4 : k < 4 := hk
      clear hk
      interval_cases k <;> norm_num [candD0, candD1, candD2, candD3])
    (by
      intro k hk h3k _
      have hk4 : k < 4 := hk
      omega)
  rw [hq, candD3] at h
  rw [h]
  norm_num [offsetXY, sqPoly, prevIdx]

lemma cpop_two_E : closestPointOnPolygon twoPoly ⟨5, 7⟩ = (⟨5, 0⟩, 0) := by
  have hq : localPt twoPoly ⟨5, 7⟩ = ⟨5, 7⟩ := by norm_num [localPt, twoPoly]
  have h := closestPointOnPolygon_lastArgmin twoPoly ⟨5, 7⟩ 1
    (by norm_num [twoPoly])
    (by show ¬((0 : ℝ) - 10 = 0 ∧ (0 : ℝ) - 0 = 0); norm_num)
    (by rw [hq, candE1]; exact le_maxValue (by norm_num))
    (by
      intro k hk _
      rw [hq, candE1]
      have hk2 : k < 2 := hk
      clear hk
      interval_cases k <;> norm_num [candE0, candE1])
    (by
      intro k hk h1k _
      have hk2 : k < 2 := hk
      omega)
  rw [hq, candE1] at h
  rw [h]
  norm_num [offsetXY, twoPoly, prevIdx]

/-! ### C1 — the `≤` tie-break: the last minimal edge wins -/

/-- C1: the polygon-projection loop replaces its best candidate whenever a new
non-degenerate edge's distance is less than or equal to (not strictly less
than) the current best (first conjunct, the update rule of source lines
78–82); consequently, the iteration that wins is the **last** one achieving
the minimal distance: if iteration `j` is non-degenerate, within
`Number.MAX_VALUE`, minimal among all non-degenerate iterations, and strictly
better than every later one, then the result is `j`'s candidate and edge
index (second conjunct).  In particular, for a query point at a shared vertex
of two edges, the later-visited edge supplies the result. -/
theorem c1_tiebreak_last_edge_wins :
    (∀ (pts : List XY) (point : XY) (st : XY × ℝ × ℕ) (i : ℕ),
        ¬ degAt pts i → (candPair pts point i).2 ≤ st.2.1 →
        polyStep pts point st i =
          ((candPair pts point i).1, (candPair pts point i).2, prevIdx pts.length i)) ∧
    (∀ (poly : Polygon) (q : XY) (j : ℕ),
        j < poly.points.length → ¬ degAt poly.points j →
        (candPair poly.points (localPt poly q) j).2 ≤ maxValue →
        (∀ k < poly.points.length, ¬ degAt poly.points k →
          (candPair poly.points (localPt poly q) j).2 ≤
            (candPair poly.points (localPt poly q) k).2) →
        (∀ k < poly.points.length, j < k → ¬ degAt poly.points k →
          (candPair poly.points (localPt poly q) j).2 <
            (candPair poly.points (localPt poly q) k).2) →
        closestPointOnPolygon poly q =
          (offsetXY poly (candPair poly.points (localPt poly q) j).1,
           prevIdx poly.points.length j)) :=
  ⟨polyStep_update, closestPointOnPolygon_lastArgmin⟩

/-- Witness for C1: the query point `(0,0)` sits exactly at the shared vertex
of the square's edges 0 and 3; both give distance 0, and the later-visited
iteration 1 (edge index 0) wins. -/
theorem c1_tiebreak_last_edge_wins_witness :
    closestPointOnPolygon sqPoly ⟨0, 0⟩ = (⟨0, 0⟩, 0) := by
  have hq : localPt sqPoly ⟨0, 0⟩ = ⟨0, 0⟩ := by norm_num [localPt, sqPoly]
  have h := c1_tiebreak_last_edge_wins.2 sqPoly ⟨0, 0⟩ 1
    (by norm_num [sqPoly])
    (by show ¬((0 : ℝ) - 300 = 0 ∧ (0 : ℝ) - 0 = 0); norm_num)
    (by rw [hq, candC1]; exact le_maxValue (by norm_num))
    (by
      intro k hk _
      rw [hq, candC1]
      have hk4 : k < 4 := hk
      clear hk
      interval_cases k <;> norm_num [candC0, candC1, candC2, candC3])
    (by
      intro k hk h1k _
      rw [hq, candC1]
      have hk4 : k < 4 := hk
      clear hk
      interval_cases k <;> norm_num [candC2, candC3])
  rw [hq, candC1] at h
  rw [h]
  norm_num [offsetXY, sqPoly, prevIdx]

/-! ### C3 — which segment does the returned index identify? -/

/-- The loop invariant of `closestPointOnPolygon`: the current best point lies
on the closed segment from vertex `segmentIndex` to vertex
`(segmentIndex + 1) % n`. -/
lemma foldl_polyStep_onSegment (pts : List XY) (point : XY) :
    ∀ (l : List ℕ) (st : XY × ℝ × ℕ),
      (∀ i ∈ l, i < pts.length) →
      onSegment (pts.getD st.2.2 origin) (pts.getD ((st.2.2 + 1) % pts.length) origin) st.1 →
      onSegment (pts.getD (l.foldl (polyStep pts point) st).2.2 origin)
        (pts.getD (((l.foldl (polyStep pts point) st).2.2 + 1) % pts.length) origin)
        (l.foldl (polyStep pts point) st).1 := by
  intro l
  induction l with
  | nil => intro st _ hst; simpa using hst
  | cons i l ih =>
    intro st hmem hst
    rw [List.foldl_cons]
    refine ih _ (fun j hj => hmem j (List.mem_cons_of_mem _ hj)) ?_
    unfold polyStep
    split_ifs with h1 h2
    · exact hst
    · have hin : i < pts.length := hmem i (List.mem_cons_self i l)
      have hmod : (prevIdx pts.length i + 1) % pts.length = i := by
        unfold prevIdx
        split_ifs with h0
        · have he : pts.length - 1 + 1 = pts.length := by omega
          rw [he, Nat.mod_self, h0]
        · have he : i - 1 + 1 = i := by omega
          rw [he, Nat.mod_eq_of_lt hin]
      simp only [hmod]
      exact onSegment_symm (closestPointOnSegment_onSegment _ _ _)
    · exact hst

/-- C3 amended: the returned edge index `i` identifies the edge connecting
vertex `i` to vertex `i + 1` (wrapping to vertex 0 after the last index) —
not vertex `i` to `i − 1` — and the snapped point always lies within that
closed segment, endpoints included. -/
theorem c3_amended_snap_on_indexed_edge (poly : Polygon) (q : XY) :
    onSegment
      (offsetXY poly (poly.points.getD (closestPointOnPolygon poly q).2 origin))
      (offsetXY poly (poly.points.getD
        (((closestPointOnPolygon poly q).2 + 1) % poly.points.length) origin))
      (closestPointOnPolygon poly q).1 := by
  unfold closestPointOnPolygon
  simp only []
  refine onSegment_offsetXY poly
    (foldl_polyStep_onSegment poly.points (localPt poly q) _ _
      (fun i hi => List.mem_range.1 hi) ?_)
  cases hp : poly.points with
  | nil =>
    have hd : (default : XY) = origin := rfl
    refine ⟨0, le_refl 0, zero_le_one, ?_, ?_⟩ <;> norm_num [hd]
  | cons p rest =>
    refine ⟨0, le_refl 0, zero_le_one, ?_, ?_⟩ <;> simp [List.headI]

/-- C3 counterexample: for the square and query `(150, 0)` the returned edge
index is 0 and the snapped point is `(150, 0)`, which does **not** lie on the
segment from vertex 0 to vertex `0 − 1` (wrapping to the last index, vertex
3) — the claim's "edge `i` connects vertex `i` to vertex `i−1`" convention is
not the code's. -/
theorem c3_counterexample :
    (closestPointOnPolygon sqPoly ⟨150, 0⟩).2 = 0 ∧
    (closestPointOnPolygon sqPoly ⟨150, 0⟩).1 = ⟨150, 0⟩ ∧
    ¬ onSegment (sqPoly.points.getD 0 origin) (sqPoly.points.getD 3 origin)
        (closestPointOnPolygon sqPoly ⟨150, 0⟩).1 := by
  have g0 : sqPoly.points.getD 0 origin = ⟨0, 0⟩ := rfl
  have g3 : sqPoly.points.getD 3 origin = ⟨0, 300⟩ := rfl
  have h1 : (closestPointOnPolygon sqPoly ⟨150, 0⟩).1 = ⟨150, 0⟩ := by rw [cpop_sq_A]
  refine ⟨by rw [cpop_sq_A], h1, ?_⟩
  rw [h1, g0, g3]
  rintro ⟨s, -, -, hx, -⟩
  norm_num at hx

/-! ### C8 — projection does not fail on degenerate polygons -/

lemma twoPoly_cand0 (x y : ℝ) (hx0 : 0 ≤ x) (hx1 : x ≤ 10) (hy0 : 0 ≤ y) :
    candPair twoPoly.points ⟨x, y⟩ 0 = (⟨x, 0⟩, y) := by
  have h : candPair twoPoly.points ⟨x, y⟩ 0 =
      closestPointOnSegment ⟨0, 0⟩ ⟨10, 0⟩ ⟨x, y⟩ := rfl
  rw [h]
  refine closestPointOnSegment_eval _ _ _ _ (x / 10) y ?_ ?_ hy0 ?_
  · unfold segParam
    rw [if_pos (by norm_num)]
    field_simp
    ring
  · rw [if_neg (not_lt.2 (div_nonneg hx0 (by norm_num))),
      if_neg (not_lt.2 ((div_le_one (by norm_num)).2 hx1))]
    simp only [XY.mk.injEq]
    exact ⟨by ring, by ring⟩
  · ring

lemma twoPoly_cand1 (x y : ℝ) (hx0 : 0 ≤ x) (hx1 : x ≤ 10) (hy0 : 0 ≤ y) :
    candPair twoPoly.points ⟨x, y⟩ 1 = (⟨x, 0⟩, y) := by
  have h : candPair twoPoly.points ⟨x, y⟩ 1 =
      closestPointOnSegment ⟨10, 0⟩ ⟨0, 0⟩ ⟨x, y⟩ := rfl
  rw [h]
  refine closestPointOnSegment_eval _ _ _ _ ((10 - x) / 10) y ?_ ?_ hy0 ?_
  · unfold segParam
    rw [if_pos (by norm_num)]
    field_simp
    ring
  · rw [if_neg (not_lt.2 (div_nonneg (by linarith) (by norm_num))),
      if_neg (not_lt.2 ((div_le_one (by norm_num)).2 (by linarith)))]
    simp only [XY.mk.injEq]
    exact ⟨by ring, by ring⟩
  · ring

/-- Projection onto the two-point polygon succeeds and projects onto its
single segment (appearing twice in the edge walk; the later direction, edge
index 0, wins the `≤` tie-break). -/
lemma twoPoly_projection (x y : ℝ) (hx0 : 0 ≤ x) (hx1 : x ≤ 10) (hy0 : 0 ≤ y)
    (hy1 : y ≤ maxValue) :
    closestPointOnPolygon twoPoly ⟨x, y⟩ = (⟨x, 0⟩, 0) := by
  have hq : localPt twoPoly ⟨x, y⟩ = ⟨x, y⟩ := by simp [localPt, twoPoly]
  have h := closestPointOnPolygon_lastArgmin twoPoly ⟨x, y⟩ 1
    (by norm_num [twoPoly])
    (by show ¬((0 : ℝ) - 10 = 0 ∧ (0 : ℝ) - 0 = 0); norm_num)
    (by rw [hq, twoPoly_cand1 x y hx0 hx1 hy0]; simpa using hy1)
    (by
      intro k hk _
      rw [hq, twoPoly_cand1 x y hx0 hx1 hy0]
      have hk2 : k < 2 := hk
      clear hk
      interval_cases k
      · rw [twoPoly_cand0 x y hx0 hx1 hy0]
      · rw [twoPoly_cand1 x y hx0 hx1 hy0])
    (by
      intro k hk h1k _
      have hk2 : k < 2 := hk
      omega)
  rw [hq, twoPoly_cand1 x y hx0 hx1 hy0] at h
  rw [h]
  norm_num [offsetXY, twoPoly, prevIdx]

/-- C8 counterexample: projecting onto the polygon with only the two distinct
points `(0,0)` and `(10,0)` does **not** fail: with query `(5,7)` it returns
the projection `((5,0), edge 0)`.  The code contains no `InvalidPolygon`
check at all. -/
theorem c8_counterexample :
    twoPoly.points.length = 2 ∧
    closestPointOnPolygon twoPoly ⟨5, 7⟩ = (⟨5, 0⟩, 0) :=
  ⟨rfl, cpop_two_E⟩

/-- C8 amended: projecting onto a polygon with fewer than 3 vertices does not
fail; the usual last-minimal-edge projection is performed.  For the 2-point
polygon `[(0,0),(10,0)]`, any query `(x,y)` with `0 ≤ x ≤ 10` and
`0 ≤ y ≤ MAX_VALUE` returns `((x,0), edge 0)`. -/
theorem c8_amended_projection_succeeds (x y : ℝ) (hx0 : 0 ≤ x) (hx1 : x ≤ 10)
    (hy0 : 0 ≤ y) (hy1 : y ≤ maxValue) :
    closestPointOnPolygon twoPoly ⟨x, y⟩ = (⟨x, 0⟩, 0) :=
  twoPoly_projection x y hx0 hx1 hy0 hy1

/-- Witness for C8's amended claim, at query `(3, 4)`. -/
theorem c8_amended_projection_succeeds_witness :
    closestPointOnPolygon twoPoly ⟨3, 4⟩ = (⟨3, 0⟩, 0) :=
  c8_amended_projection_succeeds 3 4 (by norm_num) (by norm_num) (by norm_num)
    (le_maxValue (by norm_num))

/-! ### The augmented vertex list -/

lemma insertions_of_ne (sp ep : XY) (sI eI : ℕ) (v : XY) (i : ℕ)
    (hs : sI ≠ i) (he : eI ≠ i) : insertions sp ep sI eI v i = [] := by
  simp [insertions, hs, he]

lemma flatMap_vtx_only (pts : List XY) (sp ep : XY) (sI eI : ℕ) (l : List ℕ)
    (hl : ∀ j ∈ l, insertions sp ep sI eI (pts.getD j origin) j = []) :
    (l.flatMap fun i =>
        (Tag.vtx i, pts.getD i origin) :: insertions sp ep sI eI (pts.getD i origin) i) =
      l.map fun j => (Tag.vtx j, pts.getD j origin) := by
  induction l with
  | nil => rfl
  | cons i l ih =>
    rw [List.flatMap_cons, List.map_cons, hl i (List.mem_cons_self i l)]
    rw [ih fun j hj => hl j (List.mem_cons_of_mem _ hj)]
    rfl

/-! ### C5 — both snaps on the same edge -/

/-- C5: when both snapped points map to the same edge index `i` (and neither
coincides with vertex `i`), the augmented vertex list inserts both snapped
points together immediately after vertex `i`, the one with the smaller
Manhattan distance to vertex `i` first. -/
theorem c5_same_edge_insertion (pts : List XY) (sp ep : XY) (i : ℕ)
    (hi : i < pts.length) (hs : sp ≠ pts.getD i origin) (he : ep ≠ pts.getD i origin) :
    augmentedVertices pts sp ep i i =
      ((List.range i).map fun j => (Tag.vtx j, pts.getD j origin)) ++
      ((Tag.vtx i, pts.getD i origin) ::
        (if manhattan sp (pts.getD i origin) < manhattan ep (pts.getD i origin) then
          [(Tag.startP, sp), (Tag.endP, ep)]
         else [(Tag.endP, ep), (Tag.startP, sp)]) ++
       ((List.range' (i + 1) (pts.length - (i + 1))).map
          fun j => (Tag.vtx j, pts.getD j origin))) := by
  unfold augmentedVertices
  rw [range_split hi, List.flatMap_append, List.flatMap_cons]
  have hins : insertions sp ep i i (pts.getD i origin) i =
      (if manhattan sp (pts.getD i origin) < manhattan ep (pts.getD i origin) then
        [(Tag.startP, sp), (Tag.endP, ep)]
       else [(Tag.endP, ep), (Tag.startP, sp)]) := by
    unfold insertions
    rw [if_pos ⟨rfl, rfl, fun h => Tag.noConfusion h, fun h => Tag.noConfusion h⟩]
  rw [hins]
  rw [flatMap_vtx_only pts sp ep i i (List.range i) fun j hj =>
    insertions_of_ne sp ep i i _ j
      (Nat.ne_of_gt (List.mem_range.1 hj)) (Nat.ne_of_gt (List.mem_range.1 hj))]
  rw [flatMap_vtx_only pts sp ep i i (List.range' (i + 1) (pts.length - (i + 1)))
    fun j hj =>
      insertions_of_ne sp ep i i _ j
        (Nat.ne_of_lt (List.mem_range'_1.1 hj).1) (Nat.ne_of_lt (List.mem_range'_1.1 hj).1)]

/-- Witness for C5: the square's top edge with snaps `(50,0)` (start) and
`(250,0)` (end), both on edge 0: the nearer point `(50,0)` is inserted first
after vertex 0. -/
theorem c5_same_edge_insertion_witness :
    augmentedVertices [⟨0, 0⟩, ⟨300, 0⟩, ⟨300, 300⟩, ⟨0, 300⟩] ⟨50, 0⟩ ⟨250, 0⟩ 0 0 =
      [(Tag.vtx 0, ⟨0, 0⟩), (Tag.startP, ⟨50, 0⟩), (Tag.endP, ⟨250, 0⟩),
       (Tag.vtx 1, ⟨300, 0⟩), (Tag.vtx 2, ⟨300, 300⟩), (Tag.vtx 3, ⟨0, 300⟩)] := by
  have h := c5_same_edge_insertion [⟨0, 0⟩, ⟨300, 0⟩, ⟨300, 300⟩, ⟨0, 300⟩]
    ⟨50, 0⟩ ⟨250, 0⟩ 0 (by norm_num)
    (by simp only [List.getD_cons_zero]; norm_num [XY.mk.injEq])
    (by simp only [List.getD_cons_zero]; norm_num [XY.mk.injEq])
  rw [h]
  rw [if_pos (by simp only [List.getD_cons_zero]; norm_num [manhattan])]
  rfl

/-! ### Concrete augmented vertex lists for the split scenarios -/

lemma offsetPts_sq : offsetPts sqPoly = [⟨0, 0⟩, ⟨300, 0⟩, ⟨300, 300⟩, ⟨0, 300⟩] := by
  unfold offsetPts offsetXY sqPoly
  norm_num

/-- The augmented vertex list for the straight vertical cut of the square. -/
lemma sv_vertical : splitVertices sqPoly [⟨150, 0⟩, ⟨150, 300⟩] =
    [(Tag.vtx 0, ⟨0, 0⟩), (Tag.startP, ⟨150, 0⟩), (Tag.vtx 1, ⟨300, 0⟩),
     (Tag.vtx 2, ⟨300, 300⟩), (Tag.endP, ⟨150, 300⟩), (Tag.vtx 3, ⟨0, 300⟩)] := by
  unfold splitVertices
  rw [show ([⟨150, 0⟩, ⟨150, 300⟩] : List XY).headI = ⟨150, 0⟩ from rfl,
      show ([⟨150, 0⟩, ⟨150, 300⟩] : List XY).getLastD origin = ⟨150, 300⟩ from rfl,
      cpop_sq_A, cpop_sq_B, offsetPts_sq]
  rfl

/-- The augmented vertex list for the corner-to-corner cut of the square:
both snapped points coincide with polygon vertices, yet both are inserted,
duplicating those vertices. -/
lemma sv_corner : splitVertices sqPoly [⟨0, 0⟩, ⟨300, 300⟩] =
    [(Tag.vtx 0, ⟨0, 0⟩), (Tag.startP, ⟨0, 0⟩), (Tag.vtx 1, ⟨300, 0⟩),
     (Tag.vtx 2, ⟨300, 300⟩), (Tag.endP, ⟨300, 300⟩), (Tag.vtx 3, ⟨0, 300⟩)] := by
  unfold splitVertices
  rw [show ([⟨0, 0⟩, ⟨300, 300⟩] : List XY).headI = ⟨0, 0⟩ from rfl,
      show ([⟨0, 0⟩, ⟨300, 300⟩] : List XY).getLastD origin = ⟨300, 300⟩ from rfl,
      cpop_sq_C, cpop_sq_D, offsetPts_sq]
  rfl

/-! ### C2 — arc selection -/

/-- C2: for a valid split, with `s` and `e` the positions of the snapped start
and end points in the augmented vertex list and `I` the cut path's interior:
if `s` precedes `e`, shape 1 is the closed range `vertices[s..e]` plus `I`
reversed, and shape 2 is `vertices[e..end] ++ vertices[start..s]` plus `I`
forward; if `e` precedes `s`, shape 1 is `vertices[s..end] ++
vertices[start..e]` plus `I` reversed, and shape 2 is the closed range
`vertices[e..s]` plus `I` forward. -/
theorem c2_arc_selection (poly : Polygon) (cut : List XY)
    (h3 : 3 ≤ poly.points.length) (h2 : 2 ≤ cut.length) :
    (tagIdx (splitVertices poly cut) Tag.startP < tagIdx (splitVertices poly cut) Tag.endP →
      cutPolygon poly cut = Except.ok
        ((jsSlice (splitVertices poly cut) (tagIdx (splitVertices poly cut) Tag.startP)
            (tagIdx (splitVertices poly cut) Tag.endP + 1)).map Prod.snd
          ++ (cutInterior cut).reverse,
         ((jsSlice (splitVertices poly cut) (tagIdx (splitVertices poly cut) Tag.endP)
             (splitVertices poly cut).length ++
           jsSlice (splitVertices poly cut) 0
             (tagIdx (splitVertices poly cut) Tag.startP + 1)).map Prod.snd
          ++ cutInterior cut))) ∧
    (tagIdx (splitVertices poly cut) Tag.endP < tagIdx (splitVertices poly cut) Tag.startP →
      cutPolygon poly cut = Except.ok
        ((jsSlice (splitVertices poly cut) (tagIdx (splitVertices poly cut) Tag.startP)
             (splitVertices poly cut).length ++
           jsSlice (splitVertices poly cut) 0
             (tagIdx (splitVertices poly cut) Tag.endP + 1)).map Prod.snd
          ++ (cutInterior cut).reverse,
         (jsSlice (splitVertices poly cut) (tagIdx (splitVertices poly cut) Tag.endP)
            (tagIdx (splitVertices poly cut) Tag.startP + 1)).map Prod.snd
          ++ cutInterior cut)) := by
  constructor
  · intro h
    unfold cutPolygon
    rw [if_neg (by omega)]
    simp only []
    rw [if_pos h]
  · intro h
    unfold cutPolygon
    rw [if_neg (by omega)]
    simp only []
    rw [if_neg (lt_asymm h)]

/-- Witness for C2 at the square's vertical cut: `s = 1 < e = 4`. -/
theorem c2_arc_selection_witness :
    cutPolygon sqPoly [⟨150, 0⟩, ⟨150, 300⟩] =
      Except.ok ([⟨150, 0⟩, ⟨300, 0⟩, ⟨300, 300⟩, ⟨150, 300⟩],
                 [⟨150, 300⟩, ⟨0, 300⟩, ⟨0, 0⟩, ⟨150, 0⟩]) := by
  have h := (c2_arc_selection sqPoly [⟨150, 0⟩, ⟨150, 300⟩]
      (by norm_num [sqPoly]) (by norm_num)).1
    (by rw [sv_vertical]; show (1 : ℕ) < 4; norm_num)
  rw [sv_vertical] at h
  rw [h]
  rfl

/-! ### C9 — the concrete vertical-cut scenario -/

/-- C9: cutting the 300×300 square `[(0,0),(300,0),(300,300),(0,300)]` (zero
offset) along `[(150,0),(150,300)]` yields exactly two loops — the right
rectangle `[(150,0),(300,0),(300,300),(150,300)]` and the left rectangle
`[(150,300),(0,300),(0,0),(150,0)]`, each 300×150 — and the two closed
rectangular regions cover the square exactly, overlapping only on the cut
line `x = 150`. -/
theorem c9_square_vertical_cut :
    cutPolygon sqPoly [⟨150, 0⟩, ⟨150, 300⟩] =
      Except.ok ([⟨150, 0⟩, ⟨300, 0⟩, ⟨300, 300⟩, ⟨150, 300⟩],
                 [⟨150, 300⟩, ⟨0, 300⟩, ⟨0, 0⟩, ⟨150, 0⟩]) ∧
    (∀ x y : ℝ,
      ((150 ≤ x ∧ x ≤ 300 ∧ 0 ≤ y ∧ y ≤ 300) ∨ (0 ≤ x ∧ x ≤ 150 ∧ 0 ≤ y ∧ y ≤ 300)) ↔
        (0 ≤ x ∧ x ≤ 300 ∧ 0 ≤ y ∧ y ≤ 300)) ∧
    (∀ x y : ℝ,
      (150 ≤ x ∧ x ≤ 300 ∧ 0 ≤ y ∧ y ≤ 300) → (0 ≤ x ∧ x ≤ 150 ∧ 0 ≤ y ∧ y ≤ 300) →
        x = 150) := by
  refine ⟨?_, ?_, ?_⟩
  · unfold cutPolygon
    rw [if_neg (by norm_num)]
    simp only []
    rw [sv_vertical]
    rfl
  · intro x y
    constructor
    · rintro (⟨h1, h2, h3, h4⟩ | ⟨h1, h2, h3, h4⟩) <;> exact ⟨by linarith, by linarith, h3, h4⟩
    · rintro ⟨h1, h2, h3, h4⟩
      rcases le_total x 150 with hx | hx
      · exact Or.inr ⟨h1, hx, h3, h4⟩
      · exact Or.inl ⟨hx, h2, h3, h4⟩
  · rintro x y ⟨h1, -, -, -⟩ ⟨-, h2, -, -⟩
    linarith

/-! ### C4 — the vertex-coincidence check never fires (code bug) -/

/-- C4 (code bug witness): cutting the square corner-to-corner snaps both cut
endpoints exactly onto polygon vertices (`(0,0)` on edge 0, matched vertex 0;
`(300,300)` on edge 2, matched vertex 2), yet both snapped points are
inserted: the source's coincidence test `startPoint != polyPoints[i]`
compares two distinct heap objects and is always true.  Both output loops
contain a duplicated vertex. -/
theorem c4_coincident_vertex_duplicated :
    cutPolygon sqPoly [⟨0, 0⟩, ⟨300, 300⟩] =
      Except.ok ([⟨0, 0⟩, ⟨300, 0⟩, ⟨300, 300⟩, ⟨300, 300⟩],
                 [⟨300, 300⟩, ⟨0, 300⟩, ⟨0, 0⟩, ⟨0, 0⟩]) := by
  unfold cutPolygon
  rw [if_neg (by norm_num)]
  simp only []
  rw [sv_corner]
  rfl

end Snowy
